import Mathlib

/-!
# LibAleph string creation (`new.c`) — shallow embedding and verification

This file embeds the string-creation core of LibAleph (`src/new.c` together
with the macros and the `struct a_header` layout from `src/aleph.h`) in Lean
and settles a list of claims about it.

Modelling conventions:

* `size_t` values are `Nat`; where the C code can wrap (the capacity loop
  `size <<= 1` and the `++l` increment in `a_new_size_raw`) the reduction
  `% W` with `W = 2^64` is applied explicitly.
* A heap string is a structure `AStr` holding the three header fields
  `len` (code points), `size` (bytes) and `mem` (capacity), plus the byte
  buffer that follows the header, as a `List Nat` of length equal to the
  number of allocated buffer bytes.
* The allocator is a boolean oracle `allocOk`: `false` means `A_MALLOC`
  returns no storage.  Uninitialized memory is modelled by a garbage
  parameter `g` (one byte value) and garbage header fields `gl`, `gs`.
* Creation functions return `Option (Option AStr)`:
  the outer `none` means the capacity loop has not terminated within the
  given fuel (the C code would still be spinning), the inner `none` is a
  `NULL` return.
* Pointers that can be `NULL` at an interface are `Option`; a C string is
  the list of its bytes before the terminating `NUL`.
-/

namespace LibAleph

/-- One byte of memory, as a natural number (valid bytes are `< 256`). -/
abbrev Byte := Nat

/-- Modulus of `size_t` arithmetic (64-bit platform). -/
def W : Nat := 2 ^ 64

/-- `A_MIN_STR_SIZE` from `aleph.h`: minimum buffer size for new strings. -/
def A_MIN_STR_SIZE : Nat := 16

/-- `A_MIN_CP` from `aleph.h`. -/
def A_MIN_CP : Int := 0

/-- `A_MAX_CP` from `aleph.h`. -/
def A_MAX_CP : Int := 0x10FFFF

/-- `struct a_header` from `aleph.h` together with the buffer that follows
it in the single allocation: `len` counts code points, `size` counts bytes,
`mem` is the recorded buffer capacity.  `buf` is the allocated buffer
region (its length is the number of bytes `A_MALLOC` provided past the
header). -/
structure AStr where
  len : Nat
  size : Nat
  mem : Nat
  buf : List Byte
  deriving Repr, DecidableEq

/-- `memcpy(buf + off, data, data.length)`: overwrite `data.length` bytes of
`buf` starting at `off`. -/
def storeBytes (buf : List Byte) (off : Nat) (data : List Byte) : List Byte :=
  buf.take off ++ data ++ buf.drop (off + data.length)

/-- Read `n` bytes starting at a C string / buffer `p`; bytes past the
stored ones are the terminating `NUL` and then unspecified memory `g`.
Models what `memcpy` reads from a source pointer. -/
def readBytes (p : List Byte) (g : Byte) (n : Nat) : List Byte :=
  (p ++ 0 :: List.replicate n g).take n

/-- The capacity loop of `a_new_size_raw`:
`for (++l, size = A_MIN_STR_SIZE; size < l;) size <<= 1;`
in `size_t` arithmetic, run with explicit fuel: `none` means the loop has
not terminated within `fuel` iterations. -/
def growLoop (size l : Nat) : Nat → Option Nat
  | 0 => none
  | fuel + 1 => if size < l then growLoop (size * 2 % W) l fuel else some size

/-- `a_new_size_raw(l)` from `new.c`: computes the capacity (smallest power
of two from `A_MIN_STR_SIZE` reached by doubling that is `>= l+1`), calls
`A_MALLOC(sizeof *h + size)`, records `h->mem = size` and returns the
buffer.  The other header fields and the buffer bytes are uninitialized
(`gl`, `gs`, `g`).  Fuel 64 covers every terminating run of the loop. -/
def a_new_size_raw (allocOk : Bool) (g : Byte) (gl gs : Nat) (l : Nat) :
    Option (Option AStr) :=
  (growLoop A_MIN_STR_SIZE ((l + 1) % W) 64).map fun size =>
    if allocOk then some ⟨gl, gs, size, List.replicate size g⟩ else none

/-- `a_new_size(l)` from `new.c`: `a_new_size_raw(l)`, then `*s = '\0'`,
`h->len = 0`, `h->size = 0`. -/
def a_new_size (allocOk : Bool) (g : Byte) (gl gs : Nat) (l : Nat) :
    Option (Option AStr) :=
  (a_new_size_raw allocOk g gl gs l).map (Option.map fun s0 =>
    ⟨0, 0, s0.mem, storeBytes s0.buf 0 [0]⟩)

/-- Modelled from the spec: the per-leading-byte sequence length table
`a_next_char_size` behind the `a_size_chr` macro of `aleph.h` (the table
itself is generated data outside `src/`): `0x00-0x7F -> 1`,
`0xC2-0xDF -> 2`, `0xE0-0xEF -> 3`, `0xF0-0xF4 -> 4`, every other byte
`-> 1`. -/
def a_size_chr (c : Byte) : Nat :=
  if c ≤ 0x7F then 1
  else if 0xC2 ≤ c ∧ c ≤ 0xDF then 2
  else if 0xE0 ≤ c ∧ c ≤ 0xEF then 3
  else if 0xF0 ≤ c ∧ c ≤ 0xF4 then 4
  else 1

/-- Modelled from the spec: `a_len_cstr` (declared in `aleph.h`, defined
outside `src/`) counts the code points of a NUL-terminated string by
walking it with the `a_size_chr` fast path: each leading byte counts one
code point and `a_size_chr c - 1` following bytes are skipped.  The walk
stops at the end of the stored bytes; on valid UTF-8 every sequence is
complete, so this agrees with the code-point count of the decode stream.
(The skip cases are unfolded by the number of bytes skipped so the
recursion is structural.) -/
def a_len_cstr : List Byte → Nat
  | [] => 0
  | c :: rest =>
    if c ≤ 0x7F then 1 + a_len_cstr rest
    else if 0xC2 ≤ c ∧ c ≤ 0xDF then
      match rest with
      | [] => 1
      | _ :: r2 => 1 + a_len_cstr r2
    else if 0xE0 ≤ c ∧ c ≤ 0xEF then
      match rest with
      | [] => 1
      | [_] => 1
      | _ :: _ :: r3 => 1 + a_len_cstr r3
    else if 0xF0 ≤ c ∧ c ≤ 0xF4 then
      match rest with
      | [] => 1
      | [_] => 1
      | [_, _] => 1
      | _ :: _ :: _ :: r4 => 1 + a_len_cstr r4
    else 1 + a_len_cstr rest

/-- `a_new_len(s, l)` from `new.c` (body after the `NULL` checks):
`a_new_size_raw(l+1)`, then `memcpy(str, s, l)`, `str[l] = '\0'`,
`h->len = a_len_cstr(s)`, `h->size = l`. -/
def a_new_len (allocOk : Bool) (g : Byte) (gl gs : Nat) (s : List Byte)
    (l : Nat) : Option (Option AStr) :=
  (a_new_size_raw allocOk g gl gs ((l + 1) % W)).map (Option.map fun s0 =>
    ⟨a_len_cstr s, l, s0.mem, storeBytes s0.buf 0 (readBytes s g l ++ [0])⟩)

/-- `a_new(s)` from `new.c`, value semantics (`NDEBUG` build, the
`A_ASSERT_UTF8` contract check is modelled separately):
`a_new_len(s ? s : "", s ? strlen(s) : 0)`.  The argument is `none` for a
`NULL` pointer. -/
def a_new (allocOk : Bool) (g : Byte) (gl gs : Nat) (s : Option (List Byte)) :
    Option (Option AStr) :=
  match s with
  | none => a_new_len allocOk g gl gs [] 0
  | some s => a_new_len allocOk g gl gs s s.length

/-- Modelled from the spec: `a_size(s)` (declared in `aleph.h`, defined
outside `src/`) returns the string's byte length, the header field
`size`. -/
def a_size (s : AStr) : Nat := s.size

/-- `a_new_dup(s)` from `new.c` (body after the `NULL` checks):
`a_new_size_raw(a_size(s) + 1)`, then
`memcpy(a_header(dup), a_header(s), sizeof (struct a_header) + a_size(s) + 1)`
— the copy covers the whole header (so `len`, `size` and `mem` all come
from `s`) and `a_size(s) + 1` buffer bytes. -/
def a_new_dup (allocOk : Bool) (g : Byte) (gl gs : Nat) (s : AStr) :
    Option (Option AStr) :=
  (a_new_size_raw allocOk g gl gs ((a_size s + 1) % W)).map (Option.map fun d0 =>
    ⟨s.len, s.size, s.mem, storeBytes d0.buf 0 (readBytes s.buf g (a_size s + 1))⟩)

/-- `a_new_chr_internal(chr, size, repeat)` from `new.c`:
`l = size * repeat`, `a_new_size_raw(l + 1)`, then the loop
`for (i = 0; i < l; i += size) memcpy(str + i, chr, size);`
(which lays down `repeat` copies of the `size` bytes at `chr`),
`str[l] = '\0'`, `h->len = repeat`, `h->size = l`. -/
def a_new_chr_internal (allocOk : Bool) (g : Byte) (gl gs : Nat)
    (chr : List Byte) (size rep : Nat) : Option (Option AStr) :=
  let l := size * rep % W
  (a_new_size_raw allocOk g gl gs ((l + 1) % W)).map (Option.map fun s0 =>
    ⟨rep, l, s0.mem,
      storeBytes s0.buf 0 ((List.replicate rep (readBytes chr g size)).flatten ++ [0])⟩)

/-- Modelled from the spec: the encoder behind `a_to_utf8_size` (declared
in `aleph.h`, defined outside `src/`) writes the shortest-form UTF-8
encoding of a scalar value, 1 to 4 bytes. -/
def a_to_utf8 (cp : Nat) : List Byte :=
  if cp ≤ 0x7F then [cp]
  else if cp ≤ 0x7FF then
    [0xC0 + cp / 64, 0x80 + cp % 64]
  else if cp ≤ 0xFFFF then
    [0xE0 + cp / 4096, 0x80 + cp / 64 % 64, 0x80 + cp % 64]
  else
    [0xF0 + cp / 262144, 0x80 + cp / 4096 % 64, 0x80 + cp / 64 % 64, 0x80 + cp % 64]

/-- `A_ASSERT_CODEPOINT(cp)` from `aleph.h`: the asserted condition is
`A_MIN_CP <= cp && cp <= A_MAX_CP` (`a_cp` is a signed `int`). -/
def A_ASSERT_CODEPOINT (cp : Int) : Bool :=
  decide (A_MIN_CP ≤ cp) && decide (cp ≤ A_MAX_CP)

/-- The two contract assertions at the top of `a_new_cp` in `new.c`:
`assert(cp != 0); A_ASSERT_CODEPOINT(cp);`.  `true` means both pass. -/
def a_new_cp_asserts (cp : Int) : Bool :=
  decide (cp ≠ 0) && A_ASSERT_CODEPOINT cp

/-- `a_new_cp(cp, repeat)` from `new.c`, value semantics after the
asserts: encode `cp` into a local buffer with `a_to_utf8_size`, then
`a_new_chr_internal(b, size, repeat)`. -/
def a_new_cp (allocOk : Bool) (g : Byte) (gl gs : Nat) (cp : Int) (rep : Nat) :
    Option (Option AStr) :=
  a_new_chr_internal allocOk g gl gs (a_to_utf8 cp.toNat)
    (a_to_utf8 cp.toNat).length rep

/-- `a_new_chr(chr, repeat)` from `new.c`, value semantics after
`assert(*chr != 0)`: `a_new_chr_internal(chr, a_size_chr_cstr(chr), repeat)`
where `a_size_chr_cstr` looks the first byte of `chr` up in the
`a_size_chr` table (the first byte of the empty string is its `NUL`). -/
def a_new_chr (allocOk : Bool) (g : Byte) (gl gs : Nat) (chr : List Byte)
    (rep : Nat) : Option (Option AStr) :=
  a_new_chr_internal allocOk g gl gs chr (a_size_chr (chr.headD 0)) rep

/-- A UTF-8 continuation byte, `10xxxxxx`. -/
def isCont (c : Byte) : Bool :=
  decide (0x80 ≤ c) && decide (c ≤ 0xBF)

/-- Well-formedness of the two continuation bytes of a three-byte sequence
with leading byte `b`: the spec's validator rejects overlong forms
(`E0` requires `c1 >= A0`) and surrogates (`ED` requires `c1 <= 9F`). -/
def cont3ok (b c1 c2 : Byte) : Bool :=
  isCont c1 && isCont c2 &&
    (decide (b ≠ 0xE0) || decide (0xA0 ≤ c1)) &&
    (decide (b ≠ 0xED) || decide (c1 ≤ 0x9F))

/-- Well-formedness of the three continuation bytes of a four-byte sequence
with leading byte `b`: the spec's validator rejects overlong forms
(`F0` requires `c1 >= 90`) and code points above `0x10FFFF`
(`F4` requires `c1 <= 8F`). -/
def cont4ok (b c1 c2 c3 : Byte) : Bool :=
  isCont c1 && isCont c2 && isCont c3 &&
    (decide (b ≠ 0xF0) || decide (0x90 ≤ c1)) &&
    (decide (b ≠ 0xF4) || decide (c1 ≤ 0x8F))

/-- Modelled from the spec: the offset into `s` of the first invalid byte,
or the offset of the end of the string when `s` is valid UTF-8.  This is
the distance between the pointer returned by `a_is_valid_utf8` (declared in
`aleph.h`, defined outside `src/`; the spec: "returns pointer to first
invalid byte or end") and the start of the string.  Rejected, following the
spec: surrogates, overlong forms, bytes `C0`, `C1`, `F5`-`FF`, code points
above `0x10FFFF`, unexpected continuation bytes, truncation at the end. -/
def firstInvalid : List Byte → Nat
  | [] => 0
  | b :: rest =>
    if b ≤ 0x7F then 1 + firstInvalid rest
    else if 0xC2 ≤ b ∧ b ≤ 0xDF then
      match rest with
      | c1 :: r2 => if isCont c1 then 2 + firstInvalid r2 else 0
      | [] => 0
    else if 0xE0 ≤ b ∧ b ≤ 0xEF then
      match rest with
      | c1 :: c2 :: r3 => if cont3ok b c1 c2 then 3 + firstInvalid r3 else 0
      | _ => 0
    else if 0xF0 ≤ b ∧ b ≤ 0xF4 then
      match rest with
      | c1 :: c2 :: c3 :: r4 => if cont4ok b c1 c2 c3 then 4 + firstInvalid r4 else 0
      | _ => 0
    else 0

/-- A byte string is valid UTF-8 when the validator walks to its end. -/
def utf8Valid (s : List Byte) : Bool :=
  firstInvalid s == s.length

/-- The number of code points encoded by a byte string: the length of its
decode stream, counted up to the first invalid byte (meaningful on valid
UTF-8 input). -/
def decodeCount : List Byte → Nat
  | [] => 0
  | b :: rest =>
    if b ≤ 0x7F then 1 + decodeCount rest
    else if 0xC2 ≤ b ∧ b ≤ 0xDF then
      match rest with
      | c1 :: r2 => if isCont c1 then 1 + decodeCount r2 else 0
      | [] => 0
    else if 0xE0 ≤ b ∧ b ≤ 0xEF then
      match rest with
      | c1 :: c2 :: r3 => if cont3ok b c1 c2 then 1 + decodeCount r3 else 0
      | _ => 0
    else if 0xF0 ≤ b ∧ b ≤ 0xF4 then
      match rest with
      | c1 :: c2 :: c3 :: r4 => if cont4ok b c1 c2 c3 then 1 + decodeCount r4 else 0
      | _ => 0
    else 0

/-- The pointer value `a_is_valid_utf8(s)` evaluates to, for a string
object living at (non-null) address `base`: the spec's validator returns
`base` plus the offset of the first invalid byte, or of the end. -/
def a_is_valid_utf8_ptr (base : Nat) (s : List Byte) : Nat :=
  base + firstInvalid s

/-- `A_ASSERT_UTF8(s)` from `aleph.h` asserts `!a_is_valid_utf8(s)`: the
asserted condition holds exactly when the returned pointer is `NULL`
(address 0).  `true` means the assertion passes. -/
def A_ASSERT_UTF8_ok (base : Nat) (s : List Byte) : Bool :=
  a_is_valid_utf8_ptr base s == 0

/-- A natural number is a power of two. -/
def pow2 (n : Nat) : Prop := ∃ k, n = 2 ^ k

theorem pow2_16 : pow2 16 := ⟨4, rfl⟩

theorem pow2_mul2 {n : Nat} (h : pow2 n) : pow2 (n * 2) := by
  obtain ⟨k, rfl⟩ := h
  exact ⟨k + 1, by ring⟩

/-- A power of two strictly below `2 ^ 63` is at most `2 ^ 62`. -/
theorem pow2_le_of_lt {n : Nat} (h : pow2 n) (hlt : n < 2 ^ 63) : n ≤ 2 ^ 62 := by
  obtain ⟨k, rfl⟩ := h
  have hk : k < 63 := (Nat.pow_lt_pow_iff_right (by norm_num)).mp hlt
  exact Nat.pow_le_pow_right (by norm_num) (by omega)

/-- Among powers of two, `m / 2 < p` forces `m ≤ p` (for `m ≥ 2`). -/
theorem pow2_le_of_half_lt {m p : Nat} (hm : pow2 m) (hp : pow2 p)
    (h2 : 2 ≤ m) (h : m / 2 < p) : m ≤ p := by
  obtain ⟨a, rfl⟩ := hm
  obtain ⟨b, rfl⟩ := hp
  have ha : 1 ≤ a := by
    by_contra hc
    interval_cases a; omega
  have hhalf : 2 ^ a / 2 = 2 ^ (a - 1) := by
    obtain ⟨a, rfl⟩ : ∃ c, a = c + 1 := ⟨a - 1, by omega⟩
    simp [Nat.pow_succ, Nat.mul_div_cancel]
  rw [hhalf] at h
  have : a - 1 < b := (Nat.pow_lt_pow_iff_right (by norm_num)).mp h
  exact Nat.pow_le_pow_right (by norm_num) (by omega)

/-- Termination and characterization of the capacity loop: starting from a
power of two `size ≤ 2 ^ 63` with target `l' ≤ 2 ^ 63` and enough fuel, the
loop stops at a power of two `m ≥ size` with `l' ≤ m`, and `m` is either
the starting size or the double of a value below `l'`. -/
theorem growLoop_spec (fuel : Nat) :
    ∀ size l', pow2 size → size ≤ 2 ^ 63 → l' ≤ 2 ^ 63 → l' ≤ size * 2 ^ fuel →
      ∃ m, growLoop size l' (fuel + 1) = some m ∧ pow2 m ∧ size ≤ m ∧ l' ≤ m ∧
        (m = size ∨ m / 2 < l') := by
  induction fuel with
  | zero =>
    intro size l' hpow _ _ hfuel
    simp only [pow_zero, Nat.mul_one] at hfuel
    refine ⟨size, ?_, hpow, le_rfl, hfuel, Or.inl rfl⟩
    simp [growLoop, Nat.not_lt.mpr hfuel]
  | succ fuel ih =>
    intro size l' hpow hsize hl hfuel
    by_cases hlt : size < l'
    · have hsize62 : size ≤ 2 ^ 62 := pow2_le_of_lt hpow (by omega)
      have hmod : size * 2 % W = size * 2 := by
        apply Nat.mod_eq_of_lt
        have : size * 2 ≤ 2 ^ 63 := by omega
        simp only [W]
        omega
      obtain ⟨m, hm, hmp, hmge, hml, hmc⟩ :=
        ih (size * 2) l' (pow2_mul2 hpow) (by omega) hl
          (by rw [Nat.mul_assoc, ← Nat.pow_succ']; exact hfuel)
      refine ⟨m, ?_, hmp, by omega, hml, ?_⟩
      · simp only [growLoop, if_pos hlt, hmod]
        exact hm
      · rcases hmc with h | h
        · right
          rw [h, Nat.mul_div_cancel size (by norm_num)]
          exact hlt
        · exact Or.inr h
    · refine ⟨size, ?_, hpow, le_rfl, by omega, Or.inl rfl⟩
      simp [growLoop, hlt]

/-- The capacity chosen for target `l'` is the least power of two that is
`≥ A_MIN_STR_SIZE` and `≥ l'`. -/
theorem growLoop_min (hl : l' ≤ 2 ^ 63) :
    ∃ m, growLoop A_MIN_STR_SIZE l' 64 = some m ∧ pow2 m ∧
      A_MIN_STR_SIZE ≤ m ∧ l' ≤ m ∧
      ∀ p, pow2 p → A_MIN_STR_SIZE ≤ p → l' ≤ p → m ≤ p := by
  obtain ⟨m, hm, hmp, hmge, hml, hmc⟩ :=
    growLoop_spec 63 A_MIN_STR_SIZE l' pow2_16 (by simp only [A_MIN_STR_SIZE]; norm_num) hl
      (le_trans hl (by simp only [A_MIN_STR_SIZE]; norm_num))
  refine ⟨m, hm, hmp, hmge, hml, fun p hpp hp16 hpl => ?_⟩
  rcases hmc with h | h
  · exact le_of_eq_of_le h hp16
  · exact pow2_le_of_half_lt hmp hpp (by simp [A_MIN_STR_SIZE] at hmge; omega)
      (lt_of_lt_of_le h hpl)

/-- Elaboration of a successful `a_new_size_raw`: the allocator succeeded,
the header fields and buffer are the uninitialized values, and the recorded
capacity is the loop's result. -/
theorem raw_success {allocOk : Bool} {g gl gs l : Nat} {st : AStr}
    (h : a_new_size_raw allocOk g gl gs l = some (some st)) :
    allocOk = true ∧ st.len = gl ∧ st.size = gs ∧
      st.buf = List.replicate st.mem g ∧
      growLoop A_MIN_STR_SIZE ((l + 1) % W) 64 = some st.mem := by
  unfold a_new_size_raw at h
  cases hg : growLoop A_MIN_STR_SIZE ((l + 1) % W) 64 with
  | none => rw [hg] at h; exact absurd h (by simp)
  | some m =>
    rw [hg] at h
    cases allocOk with
    | false => exact absurd h (by simp)
    | true =>
      have hst : st = ⟨gl, gs, m, List.replicate m g⟩ := by
        simp only [Option.map_some', if_true] at h
        exact (Option.some.inj (Option.some.inj h)).symm
      subst hst
      exact ⟨rfl, rfl, rfl, rfl, rfl⟩

/-- Full characterization of the capacity recorded by a successful
`a_new_size_raw(l)` (no overflow): a power of two, at least
`A_MIN_STR_SIZE`, at least `l + 1`, minimal with these properties, and the
allocated buffer has exactly that many bytes. -/
theorem raw_mem_spec {allocOk : Bool} {g gl gs l : Nat} {st : AStr}
    (hl : l + 1 ≤ 2 ^ 63)
    (h : a_new_size_raw allocOk g gl gs l = some (some st)) :
    pow2 st.mem ∧ A_MIN_STR_SIZE ≤ st.mem ∧ l + 1 ≤ st.mem ∧
      st.buf.length = st.mem ∧
      ∀ p, pow2 p → A_MIN_STR_SIZE ≤ p → l + 1 ≤ p → st.mem ≤ p := by
  obtain ⟨-, -, -, hbuf, hloop⟩ := raw_success h
  have hmod : (l + 1) % W = l + 1 := Nat.mod_eq_of_lt (by simp only [W]; omega)
  rw [hmod] at hloop
  obtain ⟨m, hm, hmp, hmge, hml, hmin⟩ := @growLoop_min (l + 1) hl
  rw [hloop] at hm
  obtain rfl : st.mem = m := by injection hm
  exact ⟨hmp, hmge, hml, by rw [hbuf]; simp, hmin⟩

/-- A terminating capacity computation plus a failing allocator yields the
`NULL` return. -/
theorem raw_alloc_fail (g : Byte) (gl gs l : Nat) (hl : l + 1 ≤ 2 ^ 63) :
    a_new_size_raw false g gl gs l = some none := by
  have hmod : (l + 1) % W = l + 1 := Nat.mod_eq_of_lt (by simp only [W]; omega)
  obtain ⟨m, hm, -⟩ := @growLoop_min (l + 1) hl
  unfold a_new_size_raw
  rw [hmod, hm]
  rfl

/-- Success through two nested `Option.map`s decomposes into success of the
inner computation. -/
theorem map_map_success {α β : Type} {o : Option (Option α)} {f : α → β} {st : β}
    (h : o.map (Option.map f) = some (some st)) :
    ∃ s0, o = some (some s0) ∧ st = f s0 := by
  cases o with
  | none => exact absurd h (by simp)
  | some os =>
    cases os with
    | none => exact absurd h (by simp)
    | some s0 =>
      simp only [Option.map_some', Option.some.injEq] at h
      exact ⟨s0, rfl, h.symm⟩

theorem length_readBytes (p : List Byte) (g : Byte) (n : Nat) :
    (readBytes p g n).length = n := by
  simp only [readBytes, List.length_take, List.length_append, List.length_cons,
    List.length_replicate]
  omega

/-- Reading within the stored bytes of a string is `take`. -/
theorem readBytes_of_le {p : List Byte} {n : Nat} (g : Byte) (h : n ≤ p.length) :
    readBytes p g n = p.take n := by
  unfold readBytes
  rw [List.take_append_of_le_length h]

theorem storeBytes_zero (buf data : List Byte) :
    storeBytes buf 0 data = data ++ buf.drop data.length := by
  simp [storeBytes]

theorem length_storeBytes_zero {buf data : List Byte} (h : data.length ≤ buf.length) :
    (storeBytes buf 0 data).length = buf.length := by
  simp only [storeBytes, List.take_zero, List.nil_append, List.length_append,
    List.length_drop, Nat.zero_add]
  omega

/-- The byte just past a written prefix of length `pre.length` is the
written terminator. -/
theorem terminator_get (pre rest : List Byte) :
    ((pre ++ [0]) ++ rest)[pre.length]? = some 0 := by
  rw [List.append_assoc, List.getElem?_append_right le_rfl]
  simp

theorem length_flatten_replicate (n : Nat) (l : List Byte) :
    (List.replicate n l).flatten.length = n * l.length := by
  induction n with
  | zero => simp
  | succ n ih => simp [List.replicate_succ, ih]; ring

/-- Elaboration of a successful `a_new_len` (no overflow): header fields
and the exact buffer contents. -/
theorem a_new_len_success {ok : Bool} {g : Byte} {gl gs l : Nat}
    {s : List Byte} {st : AStr} (hl : l + 2 ≤ 2 ^ 63)
    (h : a_new_len ok g gl gs s l = some (some st)) :
    st.len = a_len_cstr s ∧ st.size = l ∧ l + 2 ≤ st.mem ∧
      A_MIN_STR_SIZE ≤ st.mem ∧ st.buf.length = st.mem ∧
      st.buf = (readBytes s g l ++ [0]) ++ (List.replicate st.mem g).drop (l + 1) := by
  have hmod : (l + 1) % W = l + 1 := Nat.mod_eq_of_lt (by simp only [W]; omega)
  unfold a_new_len at h
  rw [hmod] at h
  obtain ⟨s0, hraw, hst⟩ := map_map_success h
  obtain ⟨-, h16, hge, hblen, -⟩ := raw_mem_spec (by omega) hraw
  obtain ⟨-, -, -, hbuf, -⟩ := raw_success hraw
  have hdata : (readBytes s g l ++ [0]).length = l + 1 := by
    simp [length_readBytes]
  subst hst
  refine ⟨rfl, rfl, (show l + 2 ≤ s0.mem by omega), h16, ?_, ?_⟩
  · show (storeBytes s0.buf 0 (readBytes s g l ++ [0])).length = s0.mem
    rw [length_storeBytes_zero (by omega), hblen]
  · show storeBytes s0.buf 0 (readBytes s g l ++ [0]) =
      (readBytes s g l ++ [0]) ++ (List.replicate s0.mem g).drop (l + 1)
    rw [storeBytes_zero, hdata, hbuf]

/-- Elaboration of a successful `a_new_chr_internal` (no overflow). -/
theorem a_new_chr_internal_success {ok : Bool} {g : Byte} {gl gs : Nat}
    {chr : List Byte} {size rep : Nat} {st : AStr}
    (hb : size * rep + 2 ≤ 2 ^ 63)
    (h : a_new_chr_internal ok g gl gs chr size rep = some (some st)) :
    st.len = rep ∧ st.size = size * rep ∧ size * rep + 2 ≤ st.mem ∧
      A_MIN_STR_SIZE ≤ st.mem ∧ st.buf.length = st.mem ∧
      st.buf = ((List.replicate rep (readBytes chr g size)).flatten ++ [0]) ++
        (List.replicate st.mem g).drop (size * rep + 1) := by
  have hW : size * rep < W := by simp only [W]; omega
  have hmodl : size * rep % W = size * rep := Nat.mod_eq_of_lt hW
  have h1 : size * rep + 1 < W := by simp only [W]; omega
  have hmod2 : (size * rep + 1) % W = size * rep + 1 := Nat.mod_eq_of_lt h1
  unfold a_new_chr_internal at h
  simp only [hmodl, hmod2] at h
  obtain ⟨s0, hraw, hst⟩ := map_map_success h
  obtain ⟨-, h16, hge, hblen, -⟩ := raw_mem_spec (by omega) hraw
  obtain ⟨-, -, -, hbuf, -⟩ := raw_success hraw
  have hdata : ((List.replicate rep (readBytes chr g size)).flatten ++ [0]).length
      = size * rep + 1 := by
    simp only [List.length_append, length_flatten_replicate, length_readBytes,
      List.length_singleton]
    ring
  subst hst
  refine ⟨rfl, rfl, (show size * rep + 2 ≤ s0.mem by omega), h16, ?_, ?_⟩
  · show (storeBytes s0.buf 0
      ((List.replicate rep (readBytes chr g size)).flatten ++ [0])).length = s0.mem
    rw [length_storeBytes_zero (by omega), hblen]
  · show storeBytes s0.buf 0 ((List.replicate rep (readBytes chr g size)).flatten ++ [0]) =
      ((List.replicate rep (readBytes chr g size)).flatten ++ [0]) ++
        (List.replicate s0.mem g).drop (size * rep + 1)
    rw [storeBytes_zero, hdata, hbuf]

/-- Elaboration of a successful `a_new_dup` (no overflow): all header
fields are copied from the source; the fresh allocation's own size is the
length of the new buffer. -/
theorem a_new_dup_success {ok : Bool} {g : Byte} {gl gs : Nat} {s st : AStr}
    (hb : s.size + 2 ≤ 2 ^ 63)
    (h : a_new_dup ok g gl gs s = some (some st)) :
    st.len = s.len ∧ st.size = s.size ∧ st.mem = s.mem ∧
      pow2 st.buf.length ∧ A_MIN_STR_SIZE ≤ st.buf.length ∧
      s.size + 2 ≤ st.buf.length ∧
      (∀ p, pow2 p → A_MIN_STR_SIZE ≤ p → s.size + 2 ≤ p → st.buf.length ≤ p) ∧
      st.buf = readBytes s.buf g (s.size + 1) ++
        (List.replicate st.buf.length g).drop (s.size + 1) := by
  have hmod : (a_size s + 1) % W = s.size + 1 :=
    Nat.mod_eq_of_lt (by simp only [W, a_size]; omega)
  unfold a_new_dup at h
  rw [hmod] at h
  obtain ⟨s0, hraw, hst⟩ := map_map_success h
  obtain ⟨hp, h16, hge, hblen, hmin⟩ := raw_mem_spec (by omega) hraw
  obtain ⟨-, -, -, hbuf, -⟩ := raw_success hraw
  have hdata : (readBytes s.buf g (a_size s + 1)).length = s.size + 1 := by
    simp [length_readBytes, a_size]
  have hstb : st.buf.length = s0.mem := by
    rw [hst]
    show (storeBytes s0.buf 0 (readBytes s.buf g (a_size s + 1))).length = s0.mem
    rw [length_storeBytes_zero (by omega), hblen]
  refine ⟨by rw [hst], by rw [hst], by rw [hst], ?_, ?_, ?_, ?_, ?_⟩
  · rw [hstb]; exact hp
  · rw [hstb]; exact h16
  · rw [hstb]; omega
  · intro p hpp hp16 hpl
    rw [hstb]
    exact hmin p hpp hp16 (by omega)
  · rw [hstb, hst]
    show storeBytes s0.buf 0 (readBytes s.buf g (a_size s + 1)) =
      readBytes s.buf g (s.size + 1) ++ (List.replicate s0.mem g).drop (s.size + 1)
    rw [storeBytes_zero, hdata, hbuf]
    simp only [a_size]

/-- The returned string of a successful `a_new_len` satisfies the
termination invariant: `size < mem` and a `NUL` at index `size`. -/
theorem a_new_len_invariant {ok : Bool} {g : Byte} {gl gs l : Nat}
    {s : List Byte} {st : AStr} (hl : l + 2 ≤ 2 ^ 63)
    (h : a_new_len ok g gl gs s l = some (some st)) :
    st.size < st.mem ∧ st.buf[st.size]? = some 0 := by
  obtain ⟨-, hsize, hge, -, -, hbuf⟩ := a_new_len_success hl h
  refine ⟨by omega, ?_⟩
  rw [hbuf, hsize]
  obtain ⟨pre, hpre, hplen⟩ : ∃ pre, pre = readBytes s g l ∧ pre.length = l :=
    ⟨_, rfl, length_readBytes s g l⟩
  rw [← hpre, ← hplen]
  exact terminator_get _ _

/-- The returned string of a successful `a_new_chr_internal` satisfies the
termination invariant. -/
theorem a_new_chr_internal_invariant {ok : Bool} {g : Byte} {gl gs : Nat}
    {chr : List Byte} {size rep : Nat} {st : AStr}
    (hb : size * rep + 2 ≤ 2 ^ 63)
    (h : a_new_chr_internal ok g gl gs chr size rep = some (some st)) :
    st.size < st.mem ∧ st.buf[st.size]? = some 0 := by
  obtain ⟨-, hsize, hge, -, -, hbuf⟩ := a_new_chr_internal_success hb h
  refine ⟨by omega, ?_⟩
  rw [hbuf, hsize]
  have hplen : ((List.replicate rep (readBytes chr g size)).flatten).length
      = size * rep := by
    rw [length_flatten_replicate, length_readBytes]
    ring
  rw [← hplen]
  exact terminator_get _ _

theorem a_to_utf8_length_le (cp : Nat) : (a_to_utf8 cp).length ≤ 4 := by
  unfold a_to_utf8
  split_ifs <;> simp

theorem a_size_chr_le (c : Byte) : a_size_chr c ≤ 4 := by
  unfold a_size_chr
  split_ifs <;> omega

/-- C2: for every requested size `l` such that `l + 1` does not exceed the
largest representable power of two (`2 ^ 63`), a successful
`a_new_size_raw(l)` records in the header field `mem` the smallest power of
two that is `≥ A_MIN_STR_SIZE` (16) and `≥ l + 1`. -/
theorem C2_new_size_raw_capacity (allocOk : Bool) (g : Byte) (gl gs l : Nat)
    (st : AStr) (hl : l + 1 ≤ 2 ^ 63)
    (hsucc : a_new_size_raw allocOk g gl gs l = some (some st)) :
    pow2 st.mem ∧ A_MIN_STR_SIZE ≤ st.mem ∧ l + 1 ≤ st.mem ∧
      ∀ p, pow2 p → A_MIN_STR_SIZE ≤ p → l + 1 ≤ p → st.mem ≤ p := by
  obtain ⟨hp, h16, hge, -, hmin⟩ := raw_mem_spec hl hsucc
  exact ⟨hp, h16, hge, hmin⟩

/-- Witness for C2 at the concrete request `l = 20`: the recorded capacity
is 32, the least power of two `≥ 16` and `≥ 21`. -/
theorem C2_witness :
    pow2 (⟨0, 0, 32, List.replicate 32 0⟩ : AStr).mem ∧
      A_MIN_STR_SIZE ≤ (⟨0, 0, 32, List.replicate 32 0⟩ : AStr).mem ∧
      20 + 1 ≤ (⟨0, 0, 32, List.replicate 32 0⟩ : AStr).mem ∧
      ∀ p, pow2 p → A_MIN_STR_SIZE ≤ p → 20 + 1 ≤ p →
        (⟨0, 0, 32, List.replicate 32 0⟩ : AStr).mem ≤ p :=
  C2_new_size_raw_capacity true 0 0 0 20 ⟨0, 0, 32, List.replicate 32 0⟩
    (by norm_num) (by decide)

/-- Starting from any state the capacity loop can reach on the way up
(zero, or a power of two between 16 and `2 ^ 63`), a target beyond `2 ^ 63`
is never met: doubling wraps `2 ^ 63` to 0 and then stays at 0, so the loop
runs forever (no fuel suffices). -/
theorem growLoop_stuck (l' : Nat) (hl : 2 ^ 63 < l') :
    ∀ fuel size, (size = 0 ∨ (pow2 size ∧ size ≤ 2 ^ 63)) →
      growLoop size l' fuel = none := by
  intro fuel
  induction fuel with
  | zero => intro size _; rfl
  | succ fuel ih =>
    intro size hs
    have hlt : size < l' := by
      rcases hs with rfl | ⟨-, h⟩ <;> omega
    simp only [growLoop, if_pos hlt]
    apply ih
    rcases hs with rfl | ⟨hp, hle⟩
    · left; simp
    · by_cases h63 : size = 2 ^ 63
      · left
        subst h63
        norm_num [W]
      · right
        have h62 : size ≤ 2 ^ 62 := pow2_le_of_lt hp (by omega)
        have hmod : size * 2 % W = size * 2 :=
          Nat.mod_eq_of_lt (by simp only [W]; omega)
        rw [hmod]
        exact ⟨pow2_mul2 hp, by omega⟩

/-- C8 (refuted: the code loops forever): at the request `l = 2 ^ 63` the
capacity loop of `a_new_size_raw` never terminates — `size` doubles up to
`2 ^ 63`, wraps to 0, and then `0 < l + 1` holds forever — so
`a_new_size_raw` is NOT total on `size_t` (the embedding returns the
out-of-fuel marker `none` for every fuel). -/
theorem C8_capacity_loop_diverges :
    (∀ fuel, growLoop A_MIN_STR_SIZE (2 ^ 63 + 1) fuel = none) ∧
      ∀ (g : Byte) (gl gs : Nat) (allocOk : Bool),
        a_new_size_raw allocOk g gl gs (2 ^ 63) = none := by
  have hmain : ∀ fuel, growLoop A_MIN_STR_SIZE (2 ^ 63 + 1) fuel = none := by
    intro fuel
    apply growLoop_stuck (2 ^ 63 + 1) (by norm_num) fuel
    right
    exact ⟨pow2_16, by norm_num [A_MIN_STR_SIZE]⟩
  refine ⟨hmain, fun g gl gs allocOk => ?_⟩
  unfold a_new_size_raw
  rw [show (2 ^ 63 + 1) % W = 2 ^ 63 + 1 from Nat.mod_eq_of_lt (by norm_num [W])]
  rw [hmain 64]
  rfl

/-- Allocation failure inside `a_new_chr_internal` propagates as `NULL`. -/
theorem internal_alloc_fail (g : Byte) (gl gs : Nat) (chr : List Byte)
    (size rep : Nat) (hb : size * rep + 2 ≤ 2 ^ 63) :
    a_new_chr_internal false g gl gs chr size rep = some none := by
  have hmodl : size * rep % W = size * rep :=
    Nat.mod_eq_of_lt (by simp only [W]; omega)
  have hmod2 : (size * rep + 1) % W = size * rep + 1 :=
    Nat.mod_eq_of_lt (by simp only [W]; omega)
  unfold a_new_chr_internal
  simp only [hmodl, hmod2]
  rw [raw_alloc_fail _ _ _ _ (by omega)]
  rfl

/-- C5: when the allocator returns no storage (`allocOk = false`), every
creation function of `new.c` returns `NULL` to its caller (for inputs on
which the capacity loop terminates; the single `A_MALLOC` call is the only
resource acquired, so nothing is retained). -/
theorem C5_oom_returns_null (g : Byte) (gl gs : Nat) :
    (∀ l, l + 1 ≤ 2 ^ 63 → a_new_size_raw false g gl gs l = some none) ∧
    (∀ l, l + 1 ≤ 2 ^ 63 → a_new_size false g gl gs l = some none) ∧
    (∀ (s : List Byte) l, l + 2 ≤ 2 ^ 63 →
      a_new_len false g gl gs s l = some none) ∧
    (∀ s : List Byte, s.length + 2 ≤ 2 ^ 63 →
      a_new false g gl gs (some s) = some none) ∧
    (a_new false g gl gs none = some none) ∧
    (∀ s : AStr, s.size + 2 ≤ 2 ^ 63 → a_new_dup false g gl gs s = some none) ∧
    (∀ (cp : Int) rep, 4 * rep + 2 ≤ 2 ^ 63 →
      a_new_cp false g gl gs cp rep = some none) ∧
    (∀ (chr : List Byte) rep, 4 * rep + 2 ≤ 2 ^ 63 →
      a_new_chr false g gl gs chr rep = some none) := by
  have hlen : ∀ (s : List Byte) l, l + 2 ≤ 2 ^ 63 →
      a_new_len false g gl gs s l = some none := by
    intro s l hl
    have hmod : (l + 1) % W = l + 1 := Nat.mod_eq_of_lt (by simp only [W]; omega)
    unfold a_new_len
    rw [hmod, raw_alloc_fail _ _ _ _ (by omega)]
    rfl
  refine ⟨fun l hl => raw_alloc_fail _ _ _ _ hl, ?_, hlen, ?_, ?_, ?_, ?_, ?_⟩
  · intro l hl
    unfold a_new_size
    rw [raw_alloc_fail _ _ _ _ hl]
    rfl
  · intro s hs
    exact hlen s s.length hs
  · exact hlen [] 0 (by norm_num)
  · intro s hs
    have hmod : (a_size s + 1) % W = s.size + 1 :=
      Nat.mod_eq_of_lt (by simp only [W, a_size]; omega)
    unfold a_new_dup
    rw [hmod, raw_alloc_fail _ _ _ _ (by omega)]
    rfl
  · intro cp rep hr
    have h4 : (a_to_utf8 cp.toNat).length * rep ≤ 4 * rep :=
      Nat.mul_le_mul_right rep (a_to_utf8_length_le cp.toNat)
    exact internal_alloc_fail _ _ _ _ _ _ (by omega)
  · intro chr rep hr
    have h4 : a_size_chr (chr.headD 0) * rep ≤ 4 * rep :=
      Nat.mul_le_mul_right rep (a_size_chr_le (chr.headD 0))
    exact internal_alloc_fail _ _ _ _ _ _ (by omega)

/-- Witness for C5 at concrete inputs: a failing allocator makes
`a_new_size_raw(5)` and `a_new("ab")` return `NULL`. -/
theorem C5_witness :
    a_new_size_raw false 0 0 0 5 = some none ∧
      a_new false 0 0 0 (some [0x61, 0x62]) = some none :=
  ⟨(C5_oom_returns_null 0 0 0).1 5 (by norm_num),
    (C5_oom_returns_null 0 0 0).2.2.2.1 [0x61, 0x62] (by norm_num)⟩

/-- C3: every successful non-raw creation (`a_new`, `a_new_len`,
`a_new_size`, `a_new_cp`, `a_new_chr`, `a_new_dup`, on arguments without
`size_t` overflow, and for `a_new_dup` a source satisfying the string
invariants) returns a string with `size < mem` and a `NUL` byte stored at
index `size`. -/
theorem C3_new_strings_terminated :
    (∀ (ok : Bool) (g : Byte) (gl gs l : Nat) (st : AStr), l + 1 ≤ 2 ^ 63 →
      a_new_size ok g gl gs l = some (some st) →
      st.size < st.mem ∧ st.buf[st.size]? = some 0) ∧
    (∀ (ok : Bool) (g : Byte) (gl gs : Nat) (s : List Byte) (l : Nat)
      (st : AStr), l + 2 ≤ 2 ^ 63 →
      a_new_len ok g gl gs s l = some (some st) →
      st.size < st.mem ∧ st.buf[st.size]? = some 0) ∧
    (∀ (ok : Bool) (g : Byte) (gl gs : Nat) (s : Option (List Byte))
      (st : AStr), (s.getD []).length + 2 ≤ 2 ^ 63 →
      a_new ok g gl gs s = some (some st) →
      st.size < st.mem ∧ st.buf[st.size]? = some 0) ∧
    (∀ (ok : Bool) (g : Byte) (gl gs : Nat) (cp : Int) (rep : Nat)
      (st : AStr), 4 * rep + 2 ≤ 2 ^ 63 →
      a_new_cp ok g gl gs cp rep = some (some st) →
      st.size < st.mem ∧ st.buf[st.size]? = some 0) ∧
    (∀ (ok : Bool) (g : Byte) (gl gs : Nat) (chr : List Byte) (rep : Nat)
      (st : AStr), 4 * rep + 2 ≤ 2 ^ 63 →
      a_new_chr ok g gl gs chr rep = some (some st) →
      st.size < st.mem ∧ st.buf[st.size]? = some 0) ∧
    (∀ (ok : Bool) (g : Byte) (gl gs : Nat) (s st : AStr),
      s.size + 2 ≤ 2 ^ 63 → s.size < s.mem → s.size + 1 ≤ s.buf.length →
      s.buf[s.size]? = some 0 →
      a_new_dup ok g gl gs s = some (some st) →
      st.size < st.mem ∧ st.buf[st.size]? = some 0) := by
  refine ⟨?_, ?_, ?_, ?_, ?_, ?_⟩
  · -- a_new_size
    intro ok g gl gs l st hl h
    unfold a_new_size at h
    obtain ⟨s0, hraw, hst⟩ := map_map_success h
    obtain ⟨-, h16, -, hblen, -⟩ := raw_mem_spec hl hraw
    obtain ⟨-, -, -, hbuf, -⟩ := raw_success hraw
    subst hst
    refine ⟨(show (0 : Nat) < s0.mem by
      simp only [A_MIN_STR_SIZE] at h16; omega), ?_⟩
    show (storeBytes s0.buf 0 [0])[(0 : Nat)]? = some 0
    rw [storeBytes_zero]
    simp
  · -- a_new_len
    intro ok g gl gs s l st hl h
    exact a_new_len_invariant hl h
  · -- a_new
    intro ok g gl gs s st hl h
    cases s with
    | none => exact a_new_len_invariant (by norm_num) h
    | some s => exact a_new_len_invariant (by simpa using hl) h
  · -- a_new_cp
    intro ok g gl gs cp rep st hr h
    have h4 : (a_to_utf8 cp.toNat).length * rep ≤ 4 * rep :=
      Nat.mul_le_mul_right rep (a_to_utf8_length_le cp.toNat)
    exact a_new_chr_internal_invariant (by omega) h
  · -- a_new_chr
    intro ok g gl gs chr rep st hr h
    have h4 : a_size_chr (chr.headD 0) * rep ≤ 4 * rep :=
      Nat.mul_le_mul_right rep (a_size_chr_le (chr.headD 0))
    exact a_new_chr_internal_invariant (by omega) h
  · -- a_new_dup
    intro ok g gl gs s st hb hsm hsl hterm h
    obtain ⟨-, h2, h3, -, -, hge, -, hbuf⟩ := a_new_dup_success hb h
    refine ⟨by omega, ?_⟩
    rw [hbuf, h2, readBytes_of_le g hsl]
    rw [List.getElem?_append_left
      (by rw [List.length_take]; omega)]
    rw [List.getElem?_take]
    simp only [if_pos (Nat.lt_succ_self s.size)]
    exact hterm

/-- Witness for C3 at concrete inputs: `a_new_size(5)` and `a_new("ab")`
yield `NUL`-terminated strings with `size < mem`. -/
theorem C3_witness :
    ((⟨0, 0, 16, 0 :: List.replicate 15 0⟩ : AStr).size <
        (⟨0, 0, 16, 0 :: List.replicate 15 0⟩ : AStr).mem ∧
      (⟨0, 0, 16, 0 :: List.replicate 15 0⟩ : AStr).buf[
        (⟨0, 0, 16, 0 :: List.replicate 15 0⟩ : AStr).size]? = some 0) ∧
    ((⟨2, 2, 16, 0x61 :: 0x62 :: 0 :: List.replicate 13 0⟩ : AStr).size <
        (⟨2, 2, 16, 0x61 :: 0x62 :: 0 :: List.replicate 13 0⟩ : AStr).mem ∧
      (⟨2, 2, 16, 0x61 :: 0x62 :: 0 :: List.replicate 13 0⟩ : AStr).buf[
        (⟨2, 2, 16, 0x61 :: 0x62 :: 0 :: List.replicate 13 0⟩ : AStr).size]?
        = some 0) :=
  ⟨C3_new_strings_terminated.1 true 0 0 0 5 ⟨0, 0, 16, 0 :: List.replicate 15 0⟩
      (by norm_num) (by decide),
    C3_new_strings_terminated.2.2.1 true 0 0 0 (some [0x61, 0x62])
      ⟨2, 2, 16, 0x61 :: 0x62 :: 0 :: List.replicate 13 0⟩
      (by norm_num) (by decide)⟩

/-- C1 (refuted by the code): `a_new_len` stores
`h->len = a_len_cstr(s)` — the code-point count of the WHOLE
NUL-terminated argument — not the count of the first `l` copied bytes.
At the valid UTF-8 input `s = "ab"` with `l = 1` (so `l ≤ strlen(s)`),
the buffer receives the single byte `a` (1 code point, and the first
1-byte prefix of `s` encodes 1 code point), yet the header field `len` is
set to 2. -/
theorem C1_len_counts_whole_string :
    utf8Valid [0x61, 0x62] = true ∧
    a_new_len true 0 0 0 [0x61, 0x62] 1 =
      some (some ⟨2, 1, 16, 0x61 :: 0 :: List.replicate 14 0⟩) ∧
    decodeCount (List.take 1 [0x61, 0x62]) = 1 ∧
    (⟨2, 1, 16, 0x61 :: 0 :: List.replicate 14 0⟩ : AStr).len ≠
      decodeCount (List.take 1 [0x61, 0x62]) := by
  decide

/-- C4 (counterexample): at the valid UTF-8 one-byte string `"a"` (object
address 1), the spec's validator returns the end pointer, which is not
`NULL`, so the asserted condition `!a_is_valid_utf8(s)` of `A_ASSERT_UTF8`
is false and the assertion aborts — contradicting the claim that the
assertion passes on every valid input. -/
theorem C4_counterexample :
    utf8Valid [0x61] = true ∧ A_ASSERT_UTF8_ok 1 [0x61] = false := by
  decide

/-- C4 (amended): given that `a_is_valid_utf8` returns a pointer to the
first invalid byte or to the end of the string, that pointer is never
`NULL` (the string object lives at a non-null address), so the
`A_ASSERT_UTF8` assertion `assert(!a_is_valid_utf8(s))` fails on EVERY
input, valid or invalid; it would pass only if the validator returned
`NULL`. -/
theorem C4_assert_always_aborts (base : Nat) (s : List Byte)
    (hbase : 0 < base) : A_ASSERT_UTF8_ok base s = false := by
  simp only [A_ASSERT_UTF8_ok, a_is_valid_utf8_ptr, beq_eq_false_iff_ne, ne_eq]
  omega

/-- Witness for the amended C4: at address 1 and the empty string the
assertion fails. -/
theorem C4_witness : A_ASSERT_UTF8_ok 1 [] = false :=
  C4_assert_always_aborts 1 [] (by decide)

/-- C6 (counterexample): the surrogate code point `U+D800` passes both
assertions at the top of `a_new_cp` — `A_ASSERT_CODEPOINT` only checks
`A_MIN_CP <= cp && cp <= A_MAX_CP` and does not exclude the surrogate
range, contradicting the claim that surrogates are contract violations. -/
theorem C6_counterexample :
    A_ASSERT_CODEPOINT 0xD800 = true ∧ a_new_cp_asserts 0xD800 = true ∧
      (0xD800 : Int) ≤ 0xDFFF ∧ (0xD800 : Int) ≥ 0xD800 := by
  decide

/-- C6 (amended): the assertions of `a_new_cp` pass exactly when `cp ≠ 0`
and `cp` lies in `[A_MIN_CP, A_MAX_CP] = [0, 0x10FFFF]`; `cp = 0` and any
`cp` outside the codespace are contract violations, but surrogates are NOT
rejected. -/
theorem C6_assert_characterization (cp : Int) :
    a_new_cp_asserts cp = true ↔ (cp ≠ 0 ∧ 0 ≤ cp ∧ cp ≤ 0x10FFFF) := by
  simp [a_new_cp_asserts, A_ASSERT_CODEPOINT, A_MIN_CP, A_MAX_CP, and_assoc]

/-- The `A_NULL_PASSTHROUGH` build of `a_new_len` (`NDEBUG`, so the
standard assert is disabled): `PASSTHROUGH_ON_FAIL(s != NULL, NULL)`
returns `NULL` before the argument is read; otherwise the body runs
unchanged. -/
def a_new_len_np (allocOk : Bool) (g : Byte) (gl gs : Nat)
    (s : Option (List Byte)) (l : Nat) : Option (Option AStr) :=
  match s with
  | none => some none
  | some s => a_new_len allocOk g gl gs s l

/-- The `A_NULL_PASSTHROUGH` build of `a_new_dup`. -/
def a_new_dup_np (allocOk : Bool) (g : Byte) (gl gs : Nat)
    (s : Option AStr) : Option (Option AStr) :=
  match s with
  | none => some none
  | some s => a_new_dup allocOk g gl gs s

/-- C7: with `A_NULL_PASSTHROUGH` enabled (and standard asserts disabled),
the two implemented creation functions with a string-pointer input,
`a_new_len` and `a_new_dup`, return `NULL` immediately on a `NULL`
argument — the argument is never read — and behave as the plain functions
on non-null arguments. -/
theorem C7_null_passthrough (ok : Bool) (g : Byte) (gl gs l : Nat)
    (s : List Byte) (d : AStr) :
    a_new_len_np ok g gl gs none l = some none ∧
    a_new_dup_np ok g gl gs none = some none ∧
    a_new_len_np ok g gl gs (some s) l = a_new_len ok g gl gs s l ∧
    a_new_dup_np ok g gl gs (some d) = a_new_dup ok g gl gs d :=
  ⟨rfl, rfl, rfl, rfl⟩

/-- C9: `a_new(NULL)` substitutes the empty string for the null pointer
(the argument is not dereferenced: the `none` branch never touches it) and
— when allocation succeeds — returns a fresh empty string with
`byte_length 0` and `codepoint_length 0`, with exactly the same result as
`a_new("")`. -/
theorem C9_new_null_is_empty (ok : Bool) (g : Byte) (gl gs : Nat) :
    a_new ok g gl gs none = a_new ok g gl gs (some []) ∧
    ∃ st, a_new true g gl gs none = some (some st) ∧
      st.len = 0 ∧ st.size = 0 := by
  refine ⟨rfl, ⟨0, 0, 16, 0 :: List.replicate 15 g⟩, ?_, rfl, rfl⟩
  rfl

/-- C10: a successful `a_new_dup(s)` copies the content bytes (terminator
included) and all three header fields `len`, `size`, `mem` verbatim from
`s`; in particular the recorded capacity `mem` is the source's `mem`, not
a value recomputed for the duplicate, while the duplicate's own fresh
allocation (the length of its buffer) is the least power of two that is
`≥ A_MIN_STR_SIZE = 16` and `≥ a_size(s) + 2`. -/
theorem C10_dup_copies_header (ok : Bool) (g : Byte) (gl gs : Nat)
    (s st : AStr) (hb : s.size + 2 ≤ 2 ^ 63)
    (hlen : s.size + 1 ≤ s.buf.length)
    (h : a_new_dup ok g gl gs s = some (some st)) :
    st.len = s.len ∧ st.size = s.size ∧ st.mem = s.mem ∧
      st.buf.take (s.size + 1) = s.buf.take (s.size + 1) ∧
      pow2 st.buf.length ∧ A_MIN_STR_SIZE ≤ st.buf.length ∧
      s.size + 2 ≤ st.buf.length ∧
      ∀ p, pow2 p → A_MIN_STR_SIZE ≤ p → s.size + 2 ≤ p →
        st.buf.length ≤ p := by
  obtain ⟨h1, h2, h3, hp, h16, hge, hmin, hbuf⟩ := a_new_dup_success hb h
  refine ⟨h1, h2, h3, ?_, hp, h16, hge, hmin⟩
  rw [hbuf, readBytes_of_le g hlen]
  rw [List.take_append_of_le_length (by rw [List.length_take]; omega)]
  rw [List.take_take]
  simp

/-- Witness for C10: duplicating a string whose recorded `mem` is 32 while
its content is 1 byte: the duplicate copies `len = size = 1`, `mem = 32`
and the bytes, yet its own allocation is only 16 bytes (the least power of
two `≥ 16` and `≥ 3`). -/
theorem C10_witness :
    (⟨1, 1, 32, 0x61 :: 0 :: List.replicate 14 0⟩ : AStr).len =
        (⟨1, 1, 32, [0x61, 0]⟩ : AStr).len ∧
      (⟨1, 1, 32, 0x61 :: 0 :: List.replicate 14 0⟩ : AStr).size =
        (⟨1, 1, 32, [0x61, 0]⟩ : AStr).size ∧
      (⟨1, 1, 32, 0x61 :: 0 :: List.replicate 14 0⟩ : AStr).mem =
        (⟨1, 1, 32, [0x61, 0]⟩ : AStr).mem ∧
      (⟨1, 1, 32, 0x61 :: 0 :: List.replicate 14 0⟩ : AStr).buf.take
          ((⟨1, 1, 32, [0x61, 0]⟩ : AStr).size + 1) =
        (⟨1, 1, 32, [0x61, 0]⟩ : AStr).buf.take
          ((⟨1, 1, 32, [0x61, 0]⟩ : AStr).size + 1) ∧
      pow2 (⟨1, 1, 32, 0x61 :: 0 :: List.replicate 14 0⟩ : AStr).buf.length ∧
      A_MIN_STR_SIZE ≤
        (⟨1, 1, 32, 0x61 :: 0 :: List.replicate 14 0⟩ : AStr).buf.length ∧
      (⟨1, 1, 32, [0x61, 0]⟩ : AStr).size + 2 ≤
        (⟨1, 1, 32, 0x61 :: 0 :: List.replicate 14 0⟩ : AStr).buf.length ∧
      ∀ p, pow2 p → A_MIN_STR_SIZE ≤ p →
        (⟨1, 1, 32, [0x61, 0]⟩ : AStr).size + 2 ≤ p →
        (⟨1, 1, 32, 0x61 :: 0 :: List.replicate 14 0⟩ : AStr).buf.length ≤ p :=
  C10_dup_copies_header true 0 0 0 ⟨1, 1, 32, [0x61, 0]⟩
    ⟨1, 1, 32, 0x61 :: 0 :: List.replicate 14 0⟩
    (by norm_num) (by norm_num) (by decide)

end LibAleph
